import Mathlib

/-!
Verification of the `ccopy` package (customizable deep copy of Go objects,
`ccopy.go`) against its specification.

The embedding models the Go runtime values that `reflect` exposes to the
package as an inductive type `RValue`.  Mutable heap entities (pointer cells,
slice backing stores, mappings, channels, functions) carry an allocation
identity (`Nat`), so that aliasing between an original value and its copy is
expressible: two slice values share a backing store exactly when they carry the
same identity.  `Config.copy` threads a fresh-identity counter; every
allocation (`reflect.New`, `reflect.MakeSlice`, `reflect.MakeMapWithSize`)
takes the current counter value and bumps it, so identities produced by a copy
are exactly those at or above the starting counter.

All numeric kinds that `Config.copy` passes through unchanged (`Int*`, `Uint*`,
`Float*`, `Complex*`) are treated identically by the source (one `case` arm
returning `ov`), so the model collapses them into a single `intV` constructor
carrying an opaque payload.  `time.Time` is modelled as `timeV` with an opaque
payload since `Config.copy` special-cases it before any kind dispatch.

Go's unbounded recursion is modelled with a fuel parameter; `CResult.nofuel`
reports exhaustion and is distinct from the error and panic outcomes, neither
of which the source can produce by running out of fuel.
-/

namespace Ccopy

/-- Model of a Go runtime value as classified by `Config.copy` in `ccopy.go`:
one constructor per kind group the dispatcher distinguishes.  A struct field is
`(name, ccopy tag, exported?, value)`; the tag is `""` when absent, matching
`ot.Field(i).Tag.Get(tagCcopy)`.  `ptrV`/`sliceV`/`mapV` are `none` when nil,
otherwise carry the allocation identity of the cell / backing store (for
`sliceV` also the capacity) and the contents.  `funcV`/`chanV` carry `none`
when nil, otherwise the identity of the referenced function/channel.
`uintptrV` and `rawPtrV` model the kinds `uintptr` and `unsafe.Pointer` that
fall through the kind switch. -/
inductive RValue : Type where
  | invalid : RValue
  | intV (n : Int) : RValue
  | strV (s : String) : RValue
  | boolV (b : Bool) : RValue
  | funcV (id : Option Nat) : RValue
  | chanV (id : Option Nat) : RValue
  | timeV (t : Int) : RValue
  | ptrV (cell : Option (Nat × RValue)) : RValue
  | sliceV (rep : Option (Nat × Nat × List RValue)) : RValue
  | mapV (rep : Option (Nat × List (RValue × RValue))) : RValue
  | ifaceV (elem : Option RValue) : RValue
  | structV (fields : List (String × String × Bool × RValue)) : RValue
  | arrayV (elems : List RValue) : RValue
  | uintptrV (n : Nat) : RValue
  | rawPtrV (n : Nat) : RValue
deriving Repr

/-- A struct field as stored in `structV`: name, `ccopy` tag (`""` if absent),
whether the field is exported (`ov.Field(i).CanInterface()`), and its value. -/
abbrev Field := String × String × Bool × RValue

/-- Model of a registered customiser: a function from the tagged field's value
to the replacement value.  The Go side stores it as `interface{}` and invokes
it with `reflect.ValueOf(fn).Call`; the model assumes it is a unary function,
as required for the call to succeed. -/
abbrev Transformer := RValue → RValue

/-- Model of `type Config map[string]interface{}`: lookup of a tag yields the
registered transformer, or `none` when the map has no entry (Go `nil`). -/
def Config := String → Option Transformer

/-- Outcome of `Config.copy`: a copied value together with the next fresh
allocation identity, a recoverable error (`reflect.Value` dropped, since every
caller discards the value accompanying an error), a panic message, or fuel
exhaustion (an artifact of the model, not of the source). -/
inductive CResult : Type where
  | ok (v : RValue) (next : Nat) : CResult
  | err (msg : String) : CResult
  | panicked (msg : String) : CResult
  | nofuel : CResult
deriving Repr

/-- Outcome of an element/field loop inside one of the copy strategies. -/
inductive LResult (α : Type) : Type where
  | ok (vs : α) (next : Nat) : LResult α
  | err (msg : String) : LResult α
  | panicked (msg : String) : LResult α
  | nofuel : LResult α
deriving Repr

/-- Outcome of the exported `Config.Copy`: `ok v` models `return oc.Interface(), nil`,
`err m` models `return nil, err` (the returned copy value is Go `nil`),
`panicked m` models an uncaught panic escaping `Copy`. -/
inductive TopResult : Type where
  | ok (v : RValue) : TopResult
  | err (msg : String) : TopResult
  | panicked (msg : String) : TopResult
  | nofuel : TopResult
deriving Repr

mutual

/-- Model of `reflect.Value.IsZero` for the value universe: zero numeric,
empty string, false, nil for pointer-like kinds, and all-components-zero for
structs and arrays. -/
def isZero : RValue → Bool
  | .invalid => false
  | .intV n => n == 0
  | .strV s => s == ""
  | .boolV b => b == false
  | .funcV id => id == none
  | .chanV id => id == none
  | .timeV t => t == 0
  | .ptrV none => true
  | .ptrV (some _) => false
  | .sliceV none => true
  | .sliceV (some _) => false
  | .mapV none => true
  | .mapV (some _) => false
  | .ifaceV none => true
  | .ifaceV (some _) => false
  | .structV fs => isZeroFields fs
  | .arrayV xs => isZeroList xs
  | .uintptrV n => n == 0
  | .rawPtrV n => n == 0

/-- All fields of a struct are zero (`reflect` inspects every field, exported
or not). -/
def isZeroFields : List Field → Bool
  | [] => true
  | (_, _, _, v) :: fs => isZero v && isZeroFields fs

/-- All elements of an array are zero. -/
def isZeroList : List RValue → Bool
  | [] => true
  | x :: xs => isZero x && isZeroList xs

end

mutual

/-- Model of `reflect.Zero(ov.Type())` / `reflect.New(ov.Type()).Elem()`: the
zero value of a value's type.  The model identifies a value's type with its
shape, so the zero value is computed from the value itself: nil for
pointer-like kinds, zero scalars, and componentwise zero for structs and
arrays (field names, tags and exported flags belong to the type and are
kept). -/
def zeroFrom : RValue → RValue
  | .invalid => .invalid
  | .intV _ => .intV 0
  | .strV _ => .strV ""
  | .boolV _ => .boolV false
  | .funcV _ => .funcV none
  | .chanV _ => .chanV none
  | .timeV _ => .timeV 0
  | .ptrV _ => .ptrV none
  | .sliceV _ => .sliceV none
  | .mapV _ => .mapV none
  | .ifaceV _ => .ifaceV none
  | .structV fs => .structV (zeroFromFields fs)
  | .arrayV xs => .arrayV (zeroFromList xs)
  | .uintptrV _ => .uintptrV 0
  | .rawPtrV _ => .rawPtrV 0

/-- Zero value of each field of a struct type. -/
def zeroFromFields : List Field → List Field
  | [] => []
  | (name, tag, exp, v) :: fs => (name, tag, exp, zeroFrom v) :: zeroFromFields fs

/-- Zero value of each element of an array type. -/
def zeroFromList : List RValue → List RValue
  | [] => []
  | x :: xs => zeroFrom x :: zeroFromList xs

end

/-- Model of the element loop shared by `Config.copySlice` and
`Config.copyArray`: copy each element in order with `cp` (the recursive
`Config.copy` at the remaining fuel), threading the fresh-identity counter,
aborting on the first non-ok outcome exactly as the `return` inside the Go
loops does. -/
def copyList (cp : RValue → Nat → CResult) : List RValue → Nat → LResult (List RValue)
  | [], fr => .ok [] fr
  | x :: xs, fr =>
    match cp x fr with
    | .ok v fr1 =>
      match copyList cp xs fr1 with
      | .ok vs fr2 => .ok (v :: vs) fr2
      | .err m => .err m
      | .panicked m => .panicked m
      | .nofuel => .nofuel
    | .err m => .err m
    | .panicked m => .panicked m
    | .nofuel => .nofuel

/-- Model of the `MapRange` loop in `Config.copyMap`: for each entry copy the
key, then the value, then insert; abort on the first non-ok outcome.  Go's map
iteration order is unspecified; the model fixes the entry-list order, which no
claim depends on. -/
def copyPairs (cp : RValue → Nat → CResult) :
    List (RValue × RValue) → Nat → LResult (List (RValue × RValue))
  | [], fr => .ok [] fr
  | (k, v) :: ps, fr =>
    match cp k fr with
    | .ok k1 fr1 =>
      match cp v fr1 with
      | .ok v1 fr2 =>
        match copyPairs cp ps fr2 with
        | .ok qs fr3 => .ok ((k1, v1) :: qs) fr3
        | .err m => .err m
        | .panicked m => .panicked m
        | .nofuel => .nofuel
      | .err m => .err m
      | .panicked m => .panicked m
      | .nofuel => .nofuel
    | .err m => .err m
    | .panicked m => .panicked m
    | .nofuel => .nofuel

/-- Model of the field loop of `Config.copyStruct`.  The destination struct
starts as the zero value of the struct type (`reflect.New(ov.Type()).Elem()`),
so a field that is skipped — because it is unexported, or because the computed
value `IsZero` — ends up holding the zero value of its own type.  An untagged
field is copied recursively with `cp`; a tagged field is produced by the
registered transformer, or aborts with the missing-customiser error when the
tag has no registration (`fn == nil`). -/
def copyFields (cp : RValue → Nat → CResult) (c : Config) :
    List Field → Nat → LResult (List Field)
  | [], fr => .ok [] fr
  | (name, tag, exp, x) :: fs, fr =>
    if exp = false then
      match copyFields cp c fs fr with
      | .ok gs fr1 => .ok ((name, tag, exp, zeroFrom x) :: gs) fr1
      | .err m => .err m
      | .panicked m => .panicked m
      | .nofuel => .nofuel
    else if tag == "" then
      match cp x fr with
      | .ok v fr1 =>
        match copyFields cp c fs fr1 with
        | .ok gs fr2 =>
          .ok ((name, tag, exp, if isZero v then zeroFrom x else v) :: gs) fr2
        | .err m => .err m
        | .panicked m => .panicked m
        | .nofuel => .nofuel
      | .err m => .err m
      | .panicked m => .panicked m
      | .nofuel => .nofuel
    else
      match c tag with
      | none => .err ("missing copy customiser for: " ++ tag)
      | some f =>
        match copyFields cp c fs fr with
        | .ok gs fr1 =>
          .ok ((name, tag, exp, if isZero (f x) then zeroFrom x else f x) :: gs) fr1
        | .err m => .err m
        | .panicked m => .panicked m
        | .nofuel => .nofuel

/-- Model of `Config.copy`, the recursive dispatcher: invalid values error,
`time.Time` is returned unchanged before any kind dispatch, each composite
kind delegates to its strategy, scalar/function/channel kinds are returned
unchanged, and the kinds that fall through the switch (`uintptr`,
`unsafe.Pointer`) panic with the kind name.  `fr` is the fresh allocation
identity counter; `reflect.New` in `copyPointer`, `reflect.MakeSlice` in
`copySlice` and `reflect.MakeMapWithSize` in `copyMap` each take the current
identity and bump the counter.  `copySlice` builds the new backing store with
`reflect.MakeSlice(t, 0, ov.Len())`, so the copy's capacity is the original's
length. -/
def Config.copy (c : Config) : Nat → RValue → Nat → CResult
  | 0, _, _ => .nofuel
  | fuel + 1, ov, fr =>
    match ov with
    | .invalid => .err "invalid value"
    | .timeV t => .ok (.timeV t) fr
    | .structV fields =>
      match copyFields (Config.copy c fuel) c fields fr with
      | .ok gs fr1 => .ok (.structV gs) fr1
      | .err m => .err m
      | .panicked m => .panicked m
      | .nofuel => .nofuel
    | .ptrV none => .ok (.ptrV none) fr
    | .ptrV (some (_, x)) =>
      match Config.copy c fuel x (fr + 1) with
      | .ok v fr1 => .ok (.ptrV (some (fr, if isZero v then zeroFrom x else v))) fr1
      | .err m => .err m
      | .panicked m => .panicked m
      | .nofuel => .nofuel
    | .sliceV none => .ok (.sliceV none) fr
    | .sliceV (some (_, _, xs)) =>
      match copyList (Config.copy c fuel) xs (fr + 1) with
      | .ok vs fr1 => .ok (.sliceV (some (fr, xs.length, vs))) fr1
      | .err m => .err m
      | .panicked m => .panicked m
      | .nofuel => .nofuel
    | .mapV none => .ok (.mapV none) fr
    | .mapV (some (_, ps)) =>
      match copyPairs (Config.copy c fuel) ps (fr + 1) with
      | .ok qs fr1 => .ok (.mapV (some (fr, qs))) fr1
      | .err m => .err m
      | .panicked m => .panicked m
      | .nofuel => .nofuel
    | .ifaceV none => .ok (.ifaceV none) fr
    | .ifaceV (some x) =>
      match Config.copy c fuel x fr with
      | .ok v fr1 => .ok (.ifaceV (some v)) fr1
      | .err m => .err m
      | .panicked m => .panicked m
      | .nofuel => .nofuel
    | .arrayV xs =>
      match copyList (Config.copy c fuel) xs fr with
      | .ok vs fr1 => .ok (.arrayV vs) fr1
      | .err m => .err m
      | .panicked m => .panicked m
      | .nofuel => .nofuel
    | .intV n => .ok (.intV n) fr
    | .strV s => .ok (.strV s) fr
    | .boolV b => .ok (.boolV b) fr
    | .funcV id => .ok (.funcV id) fr
    | .chanV id => .ok (.chanV id) fr
    | .uintptrV _ => .panicked "unsupported type: uintptr"
    | .rawPtrV _ => .panicked "unsupported type: unsafe.Pointer"

/-- Model of the exported `Config.Copy`: run the dispatcher and keep its value
on success (`oc.Interface()`), or discard it and surface only the error
(`return nil, err`).  A panic is not caught and escapes `Copy`. -/
def Config.Copy (c : Config) (fuel : Nat) (obj : RValue) (fr : Nat) : TopResult :=
  match Config.copy c fuel obj fr with
  | .ok v _ => .ok v
  | .err m => .err m
  | .panicked m => .panicked m
  | .nofuel => .nofuel

mutual

/-- Deep-equality kernel: strip allocation identities from pointer cells,
slice backing stores (and their capacities) and mappings.  Two values are
deeply equal in the sense of the spec ("structurally equivalent") exactly when
their erasures coincide; channel and function identities are kept, since those
are compared by reference. -/
def erase : RValue → RValue
  | .ptrV (some (_, x)) => .ptrV (some (0, erase x))
  | .sliceV (some (_, _, xs)) => .sliceV (some (0, 0, eraseList xs))
  | .mapV (some (_, ps)) => .mapV (some (0, erasePairs ps))
  | .ifaceV (some x) => .ifaceV (some (erase x))
  | .structV fs => .structV (eraseFields fs)
  | .arrayV xs => .arrayV (eraseList xs)
  | v => v

/-- Erasure of a list of values. -/
def eraseList : List RValue → List RValue
  | [] => []
  | x :: xs => erase x :: eraseList xs

/-- Erasure of map entries. -/
def erasePairs : List (RValue × RValue) → List (RValue × RValue)
  | [] => []
  | (k, v) :: ps => (erase k, erase v) :: erasePairs ps

/-- Erasure of struct fields. -/
def eraseFields : List Field → List Field
  | [] => []
  | (name, tag, exp, v) :: fs => (name, tag, exp, erase v) :: eraseFields fs

end

mutual

/-- Allocation identities of the mutable substructures of a value — pointer
cells, slice backing stores and mappings — at every depth.  Channel and
function identities are excluded: a copy aliases those by design. -/
def mutIds : RValue → List Nat
  | .ptrV (some (id, x)) => id :: mutIds x
  | .sliceV (some (id, _, xs)) => id :: mutIdsList xs
  | .mapV (some (id, ps)) => id :: mutIdsPairs ps
  | .ifaceV (some x) => mutIds x
  | .structV fs => mutIdsFields fs
  | .arrayV xs => mutIdsList xs
  | _ => []

/-- Mutable identities of a list of values. -/
def mutIdsList : List RValue → List Nat
  | [] => []
  | x :: xs => mutIds x ++ mutIdsList xs

/-- Mutable identities of map entries. -/
def mutIdsPairs : List (RValue × RValue) → List Nat
  | [] => []
  | (k, v) :: ps => mutIds k ++ mutIds v ++ mutIdsPairs ps

/-- Mutable identities of struct fields. -/
def mutIdsFields : List Field → List Nat
  | [] => []
  | (_, _, _, v) :: fs => mutIds v ++ mutIdsFields fs

end

mutual

/-- The well-formedness premise of the no-tags deep-copy property: the value
contains no invalid component, no `uintptr`/`unsafe.Pointer` component, and
every struct field anywhere is exported and carries no `ccopy` tag. -/
def untaggedExported : RValue → Bool
  | .invalid => false
  | .intV _ => true
  | .strV _ => true
  | .boolV _ => true
  | .funcV _ => true
  | .chanV _ => true
  | .timeV _ => true
  | .ptrV none => true
  | .ptrV (some (_, x)) => untaggedExported x
  | .sliceV none => true
  | .sliceV (some (_, _, xs)) => untaggedExportedList xs
  | .mapV none => true
  | .mapV (some (_, ps)) => untaggedExportedPairs ps
  | .ifaceV none => true
  | .ifaceV (some x) => untaggedExported x
  | .structV fs => untaggedExportedFields fs
  | .arrayV xs => untaggedExportedList xs
  | .uintptrV _ => false
  | .rawPtrV _ => false

/-- Well-formedness of a list of values. -/
def untaggedExportedList : List RValue → Bool
  | [] => true
  | x :: xs => untaggedExported x && untaggedExportedList xs

/-- Well-formedness of map entries. -/
def untaggedExportedPairs : List (RValue × RValue) → Bool
  | [] => true
  | (k, v) :: ps => untaggedExported k && untaggedExported v && untaggedExportedPairs ps

/-- Well-formedness of struct fields: exported, untagged, and a well-formed
value. -/
def untaggedExportedFields : List Field → Bool
  | [] => true
  | (_, tag, exp, v) :: fs =>
    exp && tag == "" && untaggedExported v && untaggedExportedFields fs

end

/-- One copy step behaves well on a value: from any starting counter it
succeeds, the result is deeply equal to the input, the counter does not
decrease, and every mutable identity of the result is fresh (allocated within
the step).  This is the induction hypothesis packaged for the element loops. -/
def CopyGood (cp : RValue → Nat → CResult) (x : RValue) : Prop :=
  ∀ fr, ∃ v fr1, cp x fr = .ok v fr1 ∧ erase v = erase x ∧ fr ≤ fr1 ∧
    ∀ id ∈ mutIds v, fr ≤ id ∧ id < fr1

example :
    Config.copy (fun _ => none) 3
      (.structV [("A", "", true, .intV 2), ("Name", "", true, .strV "x")]) 0 =
    .ok (.structV [("A", "", true, .intV 2), ("Name", "", true, .strV "x")]) 0 := rfl

example :
    Config.copy (fun t => if t = "anonymiseName" then some (fun _ => .strV "john doe") else none) 3
      (.structV [("A", "", true, .intV 2), ("Name", "anonymiseName", true, .strV "Secret name")]) 0 =
    .ok (.structV [("A", "", true, .intV 2), ("Name", "anonymiseName", true, .strV "john doe")]) 0 := rfl

example :
    Config.Copy (fun _ => none) 2 (.structV [("A", "A", true, .intV 1)]) 0 =
    .err "missing copy customiser for: A" := rfl

example :
    Config.copy (fun _ => none) 3 (.ptrV (some (7, .intV 5))) 10 =
    .ok (.ptrV (some (10, .intV 5))) 11 := rfl

example :
    Config.copy (fun _ => none) 3 (.sliceV (some (4, 9, [.strV "a", .strV "b"]))) 0 =
    .ok (.sliceV (some (0, 2, [.strV "a", .strV "b"]))) 1 := rfl

example :
    Config.copy (fun _ => none) 4 (.ptrV (some (3, .ptrV (some (4, .intV 0))))) 0 =
    .ok (.ptrV (some (0, .ptrV (some (1, .intV 0))))) 2 := rfl

example :
    Config.Copy (fun _ => none) 3 (.structV [("U", "", true, .uintptrV 1)]) 0 =
    .panicked "unsupported type: uintptr" := rfl

example : erase (.ptrV (some (3, .intV 5))) = erase (.ptrV (some (9, .intV 5))) := rfl

example : mutIds (.structV [("A", "", true, .ptrV (some (3, .sliceV (some (5, 0, [])))))]) = [3, 5] := rfl

theorem sizeOf_lt_of_ptr (id : Nat) (x : RValue) :
    sizeOf x < sizeOf (RValue.ptrV (some (id, x))) := by
  simp only [RValue.ptrV.sizeOf_spec, Option.some.sizeOf_spec, Prod.mk.sizeOf_spec]
  omega

theorem sizeOf_lt_of_iface (x : RValue) : sizeOf x < sizeOf (RValue.ifaceV (some x)) := by
  simp only [RValue.ifaceV.sizeOf_spec, Option.some.sizeOf_spec]
  omega

theorem sizeOf_lt_of_slice (x : RValue) (xs : List RValue) (hx : x ∈ xs) (id cap : Nat) :
    sizeOf x < sizeOf (RValue.sliceV (some (id, cap, xs))) := by
  have h := List.sizeOf_lt_of_mem hx
  simp only [RValue.sliceV.sizeOf_spec, Option.some.sizeOf_spec, Prod.mk.sizeOf_spec]
  omega

theorem sizeOf_lt_of_array (x : RValue) (xs : List RValue) (hx : x ∈ xs) :
    sizeOf x < sizeOf (RValue.arrayV xs) := by
  have h := List.sizeOf_lt_of_mem hx
  simp only [RValue.arrayV.sizeOf_spec]
  omega

theorem sizeOf_lt_of_map (k v : RValue) (ps : List (RValue × RValue)) (hp : (k, v) ∈ ps)
    (id : Nat) :
    sizeOf k < sizeOf (RValue.mapV (some (id, ps))) ∧
    sizeOf v < sizeOf (RValue.mapV (some (id, ps))) := by
  have h := List.sizeOf_lt_of_mem hp
  simp only [Prod.mk.sizeOf_spec] at h
  simp only [RValue.mapV.sizeOf_spec, Option.some.sizeOf_spec, Prod.mk.sizeOf_spec]
  omega

theorem sizeOf_lt_of_struct (name tag : String) (exp : Bool) (v : RValue)
    (fs : List Field) (hf : (name, tag, exp, v) ∈ fs) :
    sizeOf v < sizeOf (RValue.structV fs) := by
  have h := List.sizeOf_lt_of_mem hf
  simp only [Prod.mk.sizeOf_spec] at h
  simp only [RValue.structV.sizeOf_spec]
  omega

theorem untaggedExportedList_mem {xs : List RValue} (h : untaggedExportedList xs = true)
    {x : RValue} (hx : x ∈ xs) : untaggedExported x = true := by
  induction xs with
  | nil => cases hx
  | cons y ys ih =>
    simp only [untaggedExportedList, Bool.and_eq_true] at h
    rcases hx with _ | hx
    · exact h.1
    · exact ih h.2 (by assumption)

theorem untaggedExportedPairs_mem {ps : List (RValue × RValue)}
    (h : untaggedExportedPairs ps = true) {k v : RValue} (hp : (k, v) ∈ ps) :
    untaggedExported k = true ∧ untaggedExported v = true := by
  induction ps with
  | nil => cases hp
  | cons q qs ih =>
    obtain ⟨qk, qv⟩ := q
    simp only [untaggedExportedPairs, Bool.and_eq_true] at h
    rcases hp with _ | hp
    · exact ⟨h.1.1, h.1.2⟩
    · exact ih h.2 (by assumption)

theorem untaggedExportedFields_mem {fs : List Field} (h : untaggedExportedFields fs = true)
    {name tag : String} {exp : Bool} {v : RValue} (hf : (name, tag, exp, v) ∈ fs) :
    exp = true ∧ tag = "" ∧ untaggedExported v = true := by
  induction fs with
  | nil => cases hf
  | cons g gs ih =>
    obtain ⟨gn, gt, ge, gv⟩ := g
    simp only [untaggedExportedFields, Bool.and_eq_true, beq_iff_eq] at h
    rcases hf with _ | hf
    · exact ⟨h.1.1.1, h.1.1.2, h.1.2⟩
    · exact ih h.2 (by assumption)

mutual

theorem erase_zeroFrom : ∀ x, erase (zeroFrom x) = zeroFrom x
  | .invalid => rfl
  | .intV _ => rfl
  | .strV _ => rfl
  | .boolV _ => rfl
  | .funcV _ => rfl
  | .chanV _ => rfl
  | .timeV _ => rfl
  | .ptrV _ => rfl
  | .sliceV _ => rfl
  | .mapV _ => rfl
  | .ifaceV _ => rfl
  | .structV fs => by
    simp only [zeroFrom, erase, eraseFields_zeroFromFields fs]
  | .arrayV xs => by
    simp only [zeroFrom, erase, eraseList_zeroFromList xs]
  | .uintptrV _ => rfl
  | .rawPtrV _ => rfl

theorem eraseFields_zeroFromFields : ∀ fs, eraseFields (zeroFromFields fs) = zeroFromFields fs
  | [] => rfl
  | (name, tag, exp, v) :: fs => by
    simp only [zeroFromFields, eraseFields, erase_zeroFrom v, eraseFields_zeroFromFields fs]

theorem eraseList_zeroFromList : ∀ xs, eraseList (zeroFromList xs) = zeroFromList xs
  | [] => rfl
  | x :: xs => by
    simp only [zeroFromList, eraseList, erase_zeroFrom x, eraseList_zeroFromList xs]

end

mutual

theorem zeroFrom_erase : ∀ x, zeroFrom (erase x) = zeroFrom x
  | .invalid => rfl
  | .intV _ => rfl
  | .strV _ => rfl
  | .boolV _ => rfl
  | .funcV _ => rfl
  | .chanV _ => rfl
  | .timeV _ => rfl
  | .ptrV none => rfl
  | .ptrV (some _) => rfl
  | .sliceV none => rfl
  | .sliceV (some _) => rfl
  | .mapV none => rfl
  | .mapV (some _) => rfl
  | .ifaceV none => rfl
  | .ifaceV (some _) => rfl
  | .structV fs => by
    simp only [erase, zeroFrom, zeroFromFields_eraseFields fs]
  | .arrayV xs => by
    simp only [erase, zeroFrom, zeroFromList_eraseList xs]
  | .uintptrV _ => rfl
  | .rawPtrV _ => rfl

theorem zeroFromFields_eraseFields : ∀ fs, zeroFromFields (eraseFields fs) = zeroFromFields fs
  | [] => rfl
  | (name, tag, exp, v) :: fs => by
    simp only [eraseFields, zeroFromFields, zeroFrom_erase v, zeroFromFields_eraseFields fs]

theorem zeroFromList_eraseList : ∀ xs, zeroFromList (eraseList xs) = zeroFromList xs
  | [] => rfl
  | x :: xs => by
    simp only [eraseList, zeroFromList, zeroFrom_erase x, zeroFromList_eraseList xs]

end

mutual

theorem isZero_erase : ∀ x, isZero (erase x) = isZero x
  | .invalid => rfl
  | .intV _ => rfl
  | .strV _ => rfl
  | .boolV _ => rfl
  | .funcV _ => rfl
  | .chanV _ => rfl
  | .timeV _ => rfl
  | .ptrV none => rfl
  | .ptrV (some _) => rfl
  | .sliceV none => rfl
  | .sliceV (some _) => rfl
  | .mapV none => rfl
  | .mapV (some _) => rfl
  | .ifaceV none => rfl
  | .ifaceV (some _) => rfl
  | .structV fs => by
    simp only [erase, isZero, isZeroFields_eraseFields fs]
  | .arrayV xs => by
    simp only [erase, isZero, isZeroList_eraseList xs]
  | .uintptrV _ => rfl
  | .rawPtrV _ => rfl

theorem isZeroFields_eraseFields : ∀ fs, isZeroFields (eraseFields fs) = isZeroFields fs
  | [] => rfl
  | (name, tag, exp, v) :: fs => by
    simp only [eraseFields, isZeroFields, isZero_erase v, isZeroFields_eraseFields fs]

theorem isZeroList_eraseList : ∀ xs, isZeroList (eraseList xs) = isZeroList xs
  | [] => rfl
  | x :: xs => by
    simp only [eraseList, isZeroList, isZero_erase x, isZeroList_eraseList xs]

end

mutual

theorem zeroFrom_of_isZero : ∀ x, isZero x = true → zeroFrom x = x
  | .invalid => fun h => Bool.noConfusion h
  | .intV n => fun h => by
    simp only [isZero, beq_iff_eq] at h
    simp [zeroFrom, h]
  | .strV s => fun h => by
    simp only [isZero, beq_iff_eq] at h
    simp [zeroFrom, h]
  | .boolV b => fun h => by
    simp only [isZero, beq_iff_eq] at h
    simp [zeroFrom, h]
  | .funcV id => fun h => by
    simp only [isZero, beq_iff_eq] at h
    simp [zeroFrom, h]
  | .chanV id => fun h => by
    simp only [isZero, beq_iff_eq] at h
    simp [zeroFrom, h]
  | .timeV t => fun h => by
    simp only [isZero, beq_iff_eq] at h
    simp [zeroFrom, h]
  | .ptrV none => fun _ => rfl
  | .ptrV (some _) => fun h => Bool.noConfusion h
  | .sliceV none => fun _ => rfl
  | .sliceV (some _) => fun h => Bool.noConfusion h
  | .mapV none => fun _ => rfl
  | .mapV (some _) => fun h => Bool.noConfusion h
  | .ifaceV none => fun _ => rfl
  | .ifaceV (some _) => fun h => Bool.noConfusion h
  | .structV fs => fun h => by
    simp only [isZero] at h
    simp only [zeroFrom, zeroFromFields_of_isZeroFields fs h]
  | .arrayV xs => fun h => by
    simp only [isZero] at h
    simp only [zeroFrom, zeroFromList_of_isZeroList xs h]
  | .uintptrV n => fun h => by
    simp only [isZero, beq_iff_eq] at h
    simp [zeroFrom, h]
  | .rawPtrV n => fun h => by
    simp only [isZero, beq_iff_eq] at h
    simp [zeroFrom, h]

theorem zeroFromFields_of_isZeroFields : ∀ fs, isZeroFields fs = true → zeroFromFields fs = fs
  | [] => fun _ => rfl
  | (name, tag, exp, v) :: fs => fun h => by
    simp only [isZeroFields, Bool.and_eq_true] at h
    simp only [zeroFromFields, zeroFrom_of_isZero v h.1, zeroFromFields_of_isZeroFields fs h.2]

theorem zeroFromList_of_isZeroList : ∀ xs, isZeroList xs = true → zeroFromList xs = xs
  | [] => fun _ => rfl
  | x :: xs => fun h => by
    simp only [isZeroList, Bool.and_eq_true] at h
    simp only [zeroFromList, zeroFrom_of_isZero x h.1, zeroFromList_of_isZeroList xs h.2]

end

mutual

theorem mutIds_zeroFrom : ∀ x, mutIds (zeroFrom x) = []
  | .invalid => rfl
  | .intV _ => rfl
  | .strV _ => rfl
  | .boolV _ => rfl
  | .funcV _ => rfl
  | .chanV _ => rfl
  | .timeV _ => rfl
  | .ptrV _ => rfl
  | .sliceV _ => rfl
  | .mapV _ => rfl
  | .ifaceV _ => rfl
  | .structV fs => by
    simp only [zeroFrom, mutIds, mutIdsFields_zeroFromFields fs]
  | .arrayV xs => by
    simp only [zeroFrom, mutIds, mutIdsList_zeroFromList xs]
  | .uintptrV _ => rfl
  | .rawPtrV _ => rfl

theorem mutIdsFields_zeroFromFields : ∀ fs, mutIdsFields (zeroFromFields fs) = []
  | [] => rfl
  | (name, tag, exp, v) :: fs => by
    simp only [zeroFromFields, mutIdsFields, mutIds_zeroFrom v, mutIdsFields_zeroFromFields fs,
      List.nil_append]

theorem mutIdsList_zeroFromList : ∀ xs, mutIdsList (zeroFromList xs) = []
  | [] => rfl
  | x :: xs => by
    simp only [zeroFromList, mutIdsList, mutIds_zeroFrom x, mutIdsList_zeroFromList xs,
      List.nil_append]

end

theorem erase_skip {v x : RValue} (hz : isZero v = true) (he : erase v = erase x) :
    erase (zeroFrom x) = erase x := by
  calc erase (zeroFrom x) = zeroFrom x := erase_zeroFrom x
    _ = zeroFrom (erase x) := (zeroFrom_erase x).symm
    _ = zeroFrom (erase v) := by rw [he]
    _ = zeroFrom v := zeroFrom_erase v
    _ = erase (zeroFrom v) := (erase_zeroFrom v).symm
    _ = erase v := by rw [zeroFrom_of_isZero v hz]
    _ = erase x := he

theorem copyList_length (cp : RValue → Nat → CResult) :
    ∀ (xs : List RValue) (fr : Nat) (vs : List RValue) (fr1 : Nat),
    copyList cp xs fr = .ok vs fr1 → vs.length = xs.length := by
  intro xs
  induction xs with
  | nil =>
    intro fr vs fr1 h
    simp only [copyList] at h
    cases h
    rfl
  | cons x xs ih =>
    intro fr vs fr1 h
    simp only [copyList] at h
    cases hx : cp x fr with
    | ok v frv =>
      simp only [hx] at h
      cases hxs : copyList cp xs frv with
      | ok ws frw =>
        simp only [hxs] at h
        cases h
        simp [ih _ _ _ hxs]
      | err m => simp only [hxs] at h; cases h
      | panicked m => simp only [hxs] at h; cases h
      | nofuel => simp only [hxs] at h; cases h
    | err m => simp only [hx] at h; cases h
    | panicked m => simp only [hx] at h; cases h
    | nofuel => simp only [hx] at h; cases h

theorem copyFields_length (cp : RValue → Nat → CResult) (c : Config) :
    ∀ (fs : List Field) (fr : Nat) (gs : List Field) (fr1 : Nat),
    copyFields cp c fs fr = .ok gs fr1 → gs.length = fs.length := by
  intro fs
  induction fs with
  | nil =>
    intro fr gs fr1 h
    simp only [copyFields] at h
    cases h
    rfl
  | cons f fs ih =>
    intro fr gs fr1 h
    obtain ⟨name, tag, exp, x⟩ := f
    simp only [copyFields] at h
    by_cases hexp : exp = false
    · rw [if_pos hexp] at h
      cases hfs : copyFields cp c fs fr with
      | ok gs2 fr2 =>
        simp only [hfs] at h
        cases h
        simp [ih _ _ _ hfs]
      | err m => simp only [hfs] at h; cases h
      | panicked m => simp only [hfs] at h; cases h
      | nofuel => simp only [hfs] at h; cases h
    · rw [if_neg hexp] at h
      by_cases htag : (tag == "") = true
      · rw [if_pos htag] at h
        cases hx : cp x fr with
        | ok v frv =>
          simp only [hx] at h
          cases hfs : copyFields cp c fs frv with
          | ok gs2 fr2 =>
            simp only [hfs] at h
            cases h
            simp [ih _ _ _ hfs]
          | err m => simp only [hfs] at h; cases h
          | panicked m => simp only [hfs] at h; cases h
          | nofuel => simp only [hfs] at h; cases h
        | err m => simp only [hx] at h; cases h
        | panicked m => simp only [hx] at h; cases h
        | nofuel => simp only [hx] at h; cases h
      · rw [if_neg htag] at h
        cases hc : c tag with
        | none => simp only [hc] at h; cases h
        | some f =>
          simp only [hc] at h
          cases hfs : copyFields cp c fs fr with
          | ok gs2 fr2 =>
            simp only [hfs] at h
            cases h
            simp [ih _ _ _ hfs]
          | err m => simp only [hfs] at h; cases h
          | panicked m => simp only [hfs] at h; cases h
          | nofuel => simp only [hfs] at h; cases h

theorem copyFields_append (cp : RValue → Nat → CResult) (c : Config) :
    ∀ (fs1 fs2 : List Field) (fr : Nat),
    copyFields cp c (fs1 ++ fs2) fr =
      match copyFields cp c fs1 fr with
      | .ok gs fr1 =>
        match copyFields cp c fs2 fr1 with
        | .ok hs fr2 => .ok (gs ++ hs) fr2
        | .err m => .err m
        | .panicked m => .panicked m
        | .nofuel => .nofuel
      | .err m => .err m
      | .panicked m => .panicked m
      | .nofuel => .nofuel := by
  intro fs1
  induction fs1 with
  | nil =>
    intro fs2 fr
    simp only [List.nil_append, copyFields]
    cases copyFields cp c fs2 fr <;> rfl
  | cons f fs1 ih =>
    intro fs2 fr
    obtain ⟨name, tag, exp, x⟩ := f
    simp only [List.cons_append, copyFields, List.append_eq]
    by_cases hexp : exp = false
    · rw [if_pos hexp, if_pos hexp, ih]
      cases copyFields cp c fs1 fr with
      | ok gs fr1 =>
        dsimp only
        cases copyFields cp c fs2 fr1 <;> rfl
      | err m => rfl
      | panicked m => rfl
      | nofuel => rfl
    · rw [if_neg hexp, if_neg hexp]
      by_cases htag : (tag == "") = true
      · rw [if_pos htag, if_pos htag]
        cases cp x fr with
        | ok v frv =>
          dsimp only
          rw [ih]
          cases copyFields cp c fs1 frv with
          | ok gs fr1 =>
            dsimp only
            cases copyFields cp c fs2 fr1 <;> rfl
          | err m => rfl
          | panicked m => rfl
          | nofuel => rfl
        | err m => rfl
        | panicked m => rfl
        | nofuel => rfl
      · rw [if_neg htag, if_neg htag]
        cases c tag with
        | none => rfl
        | some f =>
          rw [ih]
          cases copyFields cp c fs1 fr with
          | ok gs fr1 =>
            dsimp only
            cases copyFields cp c fs2 fr1 <;> rfl
          | err m => rfl
          | panicked m => rfl
          | nofuel => rfl

theorem copyList_good (cp : RValue → Nat → CResult) :
    ∀ (xs : List RValue) (fr : Nat), (∀ x ∈ xs, CopyGood cp x) →
    ∃ vs fr1, copyList cp xs fr = .ok vs fr1 ∧ eraseList vs = eraseList xs ∧
      fr ≤ fr1 ∧ ∀ id ∈ mutIdsList vs, fr ≤ id ∧ id < fr1 := by
  intro xs
  induction xs with
  | nil =>
    intro fr _
    exact ⟨[], fr, rfl, rfl, le_refl fr, by simp [mutIdsList]⟩
  | cons x xs ih =>
    intro fr h
    obtain ⟨v, fr1, hcp, he, hle, hids⟩ := h x (by simp) fr
    obtain ⟨vs, fr2, hcl, hes, hle2, hids2⟩ := ih fr1 (fun y hy => h y (by simp [hy]))
    refine ⟨v :: vs, fr2, ?_, ?_, le_trans hle hle2, ?_⟩
    · simp only [copyList, hcp, hcl]
    · simp only [eraseList, he, hes]
    · intro id hid
      simp only [mutIdsList, List.mem_append] at hid
      rcases hid with h1 | h2
      · exact ⟨(hids id h1).1, lt_of_lt_of_le (hids id h1).2 hle2⟩
      · exact ⟨le_trans hle (hids2 id h2).1, (hids2 id h2).2⟩

theorem copyPairs_good (cp : RValue → Nat → CResult) :
    ∀ (ps : List (RValue × RValue)) (fr : Nat),
    (∀ p ∈ ps, CopyGood cp p.1 ∧ CopyGood cp p.2) →
    ∃ qs fr1, copyPairs cp ps fr = .ok qs fr1 ∧ erasePairs qs = erasePairs ps ∧
      fr ≤ fr1 ∧ ∀ id ∈ mutIdsPairs qs, fr ≤ id ∧ id < fr1 := by
  intro ps
  induction ps with
  | nil =>
    intro fr _
    exact ⟨[], fr, rfl, rfl, le_refl fr, by simp [mutIdsPairs]⟩
  | cons p ps ih =>
    intro fr h
    obtain ⟨k, v⟩ := p
    obtain ⟨k1, fr1, hck, hek, hlek, hidk⟩ := (h (k, v) (by simp)).1 fr
    obtain ⟨v1, fr2, hcv, hev, hlev, hidv⟩ := (h (k, v) (by simp)).2 fr1
    obtain ⟨qs, fr3, hcl, hes, hle3, hids3⟩ := ih fr2 (fun q hq => h q (by simp [hq]))
    refine ⟨(k1, v1) :: qs, fr3, ?_, ?_, by omega, ?_⟩
    · simp only [copyPairs, hck, hcv, hcl]
    · simp only [erasePairs, hek, hev, hes]
    · intro id hid
      simp only [mutIdsPairs, List.mem_append] at hid
      rcases hid with (h1 | h2) | h3
      · have := hidk id h1
        constructor <;> omega
      · have := hidv id h2
        constructor <;> omega
      · have := hids3 id h3
        constructor <;> omega

theorem copyFields_good (cp : RValue → Nat → CResult) (c : Config) :
    ∀ (fs : List Field) (fr : Nat),
    (∀ f ∈ fs, f.2.2.1 = true ∧ f.2.1 = "" ∧ CopyGood cp f.2.2.2) →
    ∃ gs fr1, copyFields cp c fs fr = .ok gs fr1 ∧ eraseFields gs = eraseFields fs ∧
      fr ≤ fr1 ∧ ∀ id ∈ mutIdsFields gs, fr ≤ id ∧ id < fr1 := by
  intro fs
  induction fs with
  | nil =>
    intro fr _
    exact ⟨[], fr, rfl, rfl, le_refl fr, by simp [mutIdsFields]⟩
  | cons f fs ih =>
    intro fr h
    obtain ⟨name, tag, exp, x⟩ := f
    obtain ⟨hexp, htag, hgood⟩ := h (name, tag, exp, x) (by simp)
    dsimp only at hexp htag hgood
    subst hexp
    subst htag
    obtain ⟨v, fr1, hcp, he, hle, hids⟩ := hgood fr
    obtain ⟨gs, fr2, hcl, hes, hle2, hids2⟩ := ih fr1 (fun g hg => h g (by simp [hg]))
    refine ⟨(name, "", true, if isZero v then zeroFrom x else v) :: gs, fr2, ?_, ?_, by omega, ?_⟩
    · simp [copyFields, hcp, hcl]
    · simp only [eraseFields, hes]
      by_cases hz : isZero v = true
      · rw [if_pos hz, erase_skip hz he]
      · rw [if_neg hz, he]
    · intro id hid
      simp only [mutIdsFields, List.mem_append] at hid
      rcases hid with h1 | h2
      · by_cases hz : isZero v = true
        · rw [if_pos hz, mutIds_zeroFrom] at h1
          cases h1
        · rw [if_neg hz] at h1
          have := hids id h1
          constructor <;> omega
      · have := hids2 id h2
        constructor <;> omega

theorem copy_good (c : Config) :
    ∀ (fuel : Nat) (ov : RValue), sizeOf ov < fuel → untaggedExported ov = true →
    CopyGood (Config.copy c fuel) ov := by
  intro fuel
  induction fuel with
  | zero =>
    intro ov h _
    exact absurd h (Nat.not_lt_zero _)
  | succ fuel ih =>
    intro ov hsz hwf
    unfold CopyGood
    intro fr
    cases ov with
    | invalid => exact Bool.noConfusion hwf
    | intV n => exact ⟨.intV n, fr, rfl, rfl, le_refl fr, by simp [mutIds]⟩
    | strV s => exact ⟨.strV s, fr, rfl, rfl, le_refl fr, by simp [mutIds]⟩
    | boolV b => exact ⟨.boolV b, fr, rfl, rfl, le_refl fr, by simp [mutIds]⟩
    | funcV id => exact ⟨.funcV id, fr, rfl, rfl, le_refl fr, by simp [mutIds]⟩
    | chanV id => exact ⟨.chanV id, fr, rfl, rfl, le_refl fr, by simp [mutIds]⟩
    | timeV t => exact ⟨.timeV t, fr, rfl, rfl, le_refl fr, by simp [mutIds]⟩
    | uintptrV n => exact Bool.noConfusion hwf
    | rawPtrV n => exact Bool.noConfusion hwf
    | ptrV cell =>
      cases cell with
      | none => exact ⟨.ptrV none, fr, rfl, rfl, le_refl fr, by simp [mutIds]⟩
      | some idx =>
        obtain ⟨id, x⟩ := idx
        have hwfx : untaggedExported x = true := hwf
        have hszx : sizeOf x < fuel := by
          have h1 := sizeOf_lt_of_ptr id x
          omega
        obtain ⟨v, fr1, hcp, he, hle, hids⟩ := ih x hszx hwfx (fr + 1)
        refine ⟨.ptrV (some (fr, if isZero v then zeroFrom x else v)), fr1, ?_, ?_, by omega, ?_⟩
        · simp only [Config.copy, hcp]
        · simp only [erase]
          by_cases hz : isZero v = true
          · rw [if_pos hz, erase_skip hz he]
          · rw [if_neg hz, he]
        · intro i hi
          simp only [mutIds, List.mem_cons] at hi
          rcases hi with rfl | hi
          · constructor <;> omega
          · by_cases hz : isZero v = true
            · rw [if_pos hz, mutIds_zeroFrom] at hi
              cases hi
            · rw [if_neg hz] at hi
              have := hids i hi
              constructor <;> omega
    | sliceV rep =>
      cases rep with
      | none => exact ⟨.sliceV none, fr, rfl, rfl, le_refl fr, by simp [mutIds]⟩
      | some idx =>
        obtain ⟨id, cap, xs⟩ := idx
        have hwfl : untaggedExportedList xs = true := hwf
        obtain ⟨vs, fr1, hcl, hes, hle, hids⟩ :=
          copyList_good (Config.copy c fuel) xs (fr + 1) (fun x hx => by
            refine ih x ?_ (untaggedExportedList_mem hwfl hx)
            have h1 := sizeOf_lt_of_slice x xs hx id cap
            omega)
        refine ⟨.sliceV (some (fr, xs.length, vs)), fr1, ?_, ?_, by omega, ?_⟩
        · simp only [Config.copy, hcl]
        · simp only [erase, hes]
        · intro i hi
          simp only [mutIds, List.mem_cons] at hi
          rcases hi with rfl | hi
          · constructor <;> omega
          · have := hids i hi
            constructor <;> omega
    | mapV rep =>
      cases rep with
      | none => exact ⟨.mapV none, fr, rfl, rfl, le_refl fr, by simp [mutIds]⟩
      | some idp =>
        obtain ⟨id, ps⟩ := idp
        have hwfp : untaggedExportedPairs ps = true := hwf
        obtain ⟨qs, fr1, hcq, heq, hle, hids⟩ :=
          copyPairs_good (Config.copy c fuel) ps (fr + 1) (fun p hp => by
            obtain ⟨k, v⟩ := p
            have h1 := sizeOf_lt_of_map k v ps hp id
            have h2 := untaggedExportedPairs_mem hwfp hp
            exact ⟨ih k (by omega) h2.1, ih v (by omega) h2.2⟩)
        refine ⟨.mapV (some (fr, qs)), fr1, ?_, ?_, by omega, ?_⟩
        · simp only [Config.copy, hcq]
        · simp only [erase, heq]
        · intro i hi
          simp only [mutIds, List.mem_cons] at hi
          rcases hi with rfl | hi
          · constructor <;> omega
          · have := hids i hi
            constructor <;> omega
    | ifaceV elem =>
      cases elem with
      | none => exact ⟨.ifaceV none, fr, rfl, rfl, le_refl fr, by simp [mutIds]⟩
      | some x =>
        have hwfx : untaggedExported x = true := hwf
        have hszx : sizeOf x < fuel := by
          have h1 := sizeOf_lt_of_iface x
          omega
        obtain ⟨v, fr1, hcp, he, hle, hids⟩ := ih x hszx hwfx fr
        refine ⟨.ifaceV (some v), fr1, ?_, ?_, hle, ?_⟩
        · simp only [Config.copy, hcp]
        · simp only [erase, he]
        · intro i hi
          exact hids i hi
    | structV fs =>
      have hwff : untaggedExportedFields fs = true := hwf
      obtain ⟨gs, fr1, hcf, hef, hle, hids⟩ :=
        copyFields_good (Config.copy c fuel) c fs fr (fun f hf => by
          obtain ⟨name, tag, exp, v⟩ := f
          have h1 := sizeOf_lt_of_struct name tag exp v fs hf
          have h2 := untaggedExportedFields_mem hwff hf
          exact ⟨h2.1, h2.2.1, ih v (by omega) h2.2.2⟩)
      refine ⟨.structV gs, fr1, ?_, ?_, hle, ?_⟩
      · simp only [Config.copy, hcf]
      · simp only [erase, hef]
      · intro i hi
        exact hids i hi
    | arrayV xs =>
      obtain ⟨vs, fr1, hcl, hes, hle, hids⟩ :=
        copyList_good (Config.copy c fuel) xs fr (fun x hx => by
          refine ih x ?_ (untaggedExportedList_mem hwf hx)
          have h1 := sizeOf_lt_of_array x xs hx
          omega)
      refine ⟨.arrayV vs, fr1, ?_, ?_, hle, ?_⟩
      · simp only [Config.copy, hcl]
      · simp only [erase, hes]
      · intro i hi
        exact hids i hi

/-- Config of the package example: the tag `anonymiseName` maps to a
transformer returning the literal string `john doe`. -/
def anonymiseNameFn : Transformer := fun _ => .strV "john doe"

/-- Example registry holding only `anonymiseName`. -/
def anonymiseConfig : Config :=
  fun t => if t = "anonymiseName" then some anonymiseNameFn else none

/-- The empty registry. -/
def emptyConfig : Config := fun _ => none

/-- Concrete well-formed input used to witness the deep-copy property: a
struct with a pointer field, a slice field and a mapping field, using
identities 0, 1 and 2. -/
def sampleInput : RValue :=
  .structV [("P", "", true, .ptrV (some (0, .intV 5))),
            ("S", "", true, .sliceV (some (1, 7, [.strV "a", .strV "b"]))),
            ("M", "", true, .mapV (some (2, [(.strV "k", .intV 1)])))]

/-- C1: for every struct input with a field carrying a `ccopy` tag present in
the Registry, a successful copy holds at that field exactly the value returned
by the registered transformer applied to the field's original value; the
generic recursive path is never consulted for that field (the tagged branch of
`copyFields` never invokes the recursive copy on `x`, as its definition
shows).  `hz` encodes Go's dynamic-typing guarantee that the transformer
returns the field's declared type, so a zero return coincides with the zero
value of the field's type that skipped assignment leaves in place. -/
theorem tagged_field_copy_is_transformer_value
    (c : Config) (fuel fr frF : Nat) (pre post out : List Field)
    (name tag : String) (x : RValue) (f : Transformer)
    (htag : tag ≠ "") (hreg : c tag = some f)
    (hz : isZero (f x) = true → f x = zeroFrom x)
    (hok : Config.copy c fuel (.structV (pre ++ (name, tag, true, x) :: post)) fr =
      .ok (.structV out) frF) :
    out[pre.length]? = some (name, tag, true, f x) := by
  have ht : (tag == "") = false := by
    simp [htag]
  cases fuel with
  | zero => cases hok
  | succ fuel =>
    simp only [Config.copy] at hok
    rw [copyFields_append] at hok
    cases h1 : copyFields (Config.copy c fuel) c pre fr with
    | ok gs1 fr1 =>
      simp only [h1] at hok
      simp only [copyFields, ht, Bool.false_eq_true, if_false,
        if_neg (by simp : ¬(true = false)), hreg] at hok
      cases h2 : copyFields (Config.copy c fuel) c post fr1 with
      | ok gs2 fr2 =>
        simp only [h2] at hok
        have hout : gs1 ++ (name, tag, true, if isZero (f x) then zeroFrom x else f x)
            :: gs2 = out := by
          cases hok
          rfl
        have hv : (if isZero (f x) then zeroFrom x else f x) = f x := by
          by_cases hzz : isZero (f x) = true
          · rw [if_pos hzz, ← hz hzz]
          · rw [if_neg hzz]
        rw [hv] at hout
        have hlen : gs1.length = pre.length := copyFields_length _ c pre fr gs1 fr1 h1
        rw [← hout, ← hlen, List.getElem?_append_right (le_refl gs1.length)]
        simp
      | err m =>
        simp only [h2] at hok
        cases hok
      | panicked m =>
        simp only [h2] at hok
        cases hok
      | nofuel =>
        simp only [h2] at hok
        cases hok
    | err m =>
      simp only [h1] at hok
      cases hok
    | panicked m =>
      simp only [h1] at hok
      cases hok
    | nofuel =>
      simp only [h1] at hok
      cases hok

/-- Witness for the tagged-field property: the package example — a struct
`{A: 2, Name: "Secret name"}` with `Name` tagged `anonymiseName` copies to
`{A: 2, Name: "john doe"}`. -/
theorem tagged_field_copy_is_transformer_value_witness :
    ("anonymiseName" ≠ "") ∧
    anonymiseConfig "anonymiseName" = some anonymiseNameFn ∧
    (isZero (anonymiseNameFn (.strV "Secret name")) = true →
      anonymiseNameFn (.strV "Secret name") = zeroFrom (.strV "Secret name")) ∧
    Config.copy anonymiseConfig 2
      (.structV [("A", "", true, .intV 2),
                 ("Name", "anonymiseName", true, .strV "Secret name")]) 0 =
      .ok (.structV [("A", "", true, .intV 2),
                     ("Name", "anonymiseName", true, .strV "john doe")]) 0 ∧
    [("A", "", true, .intV 2),
     ("Name", "anonymiseName", true, .strV "john doe")][[("A", "", true,
       RValue.intV 2)].length]? =
      some ("Name", "anonymiseName", true, anonymiseNameFn (.strV "Secret name")) :=
  ⟨by decide, rfl, fun h => Bool.noConfusion h, rfl,
   tagged_field_copy_is_transformer_value anonymiseConfig 2 0 0
     [("A", "", true, .intV 2)] [] _ "Name" "anonymiseName"
     (.strV "Secret name") anonymiseNameFn (by decide) rfl
     (fun h => Bool.noConfusion h) rfl⟩

/-- C2: for every acyclic input with only exported fields, no `ccopy` tags and
only supported shapes (`untaggedExported`), `Copy` succeeds, the result erases
to the same value as the input (deep equality, identities disregarded), and no
mutable substructure identity — pointer cell, slice backing store, mapping —
of the copy occurs in the original, so mutation of either is invisible in the
other. -/
theorem untagged_copy_deep_equal_and_unshared
    (c : Config) (fuel fr : Nat) (ov : RValue)
    (hfuel : sizeOf ov < fuel) (hwf : untaggedExported ov = true)
    (hids : ∀ id ∈ mutIds ov, id < fr) :
    ∃ v, Config.Copy c fuel ov fr = .ok v ∧ erase v = erase ov ∧
      ∀ id ∈ mutIds v, id ∉ mutIds ov := by
  obtain ⟨v, fr1, hcp, he, _, hfresh⟩ := copy_good c fuel ov hfuel hwf fr
  refine ⟨v, ?_, he, ?_⟩
  · unfold Config.Copy
    rw [hcp]
  · intro id hid hmem
    have h1 := (hfresh id hid).1
    have h2 := hids id hmem
    omega

/-- Witness for the deep-copy property at `sampleInput` (pointer, slice and
mapping fields, identities 0..2, counter started at 3). -/
theorem untagged_copy_deep_equal_and_unshared_witness :
    (sizeOf sampleInput < 2000 ∧ untaggedExported sampleInput = true ∧
      ∀ id ∈ mutIds sampleInput, id < 3) ∧
    (∃ v, Config.Copy emptyConfig 2000 sampleInput 3 = .ok v ∧
      erase v = erase sampleInput ∧ ∀ id ∈ mutIds v, id ∉ mutIds sampleInput) :=
  ⟨⟨by decide, by decide, by decide⟩,
   untagged_copy_deep_equal_and_unshared emptyConfig 2000 3 sampleInput
     (by decide) (by decide) (by decide)⟩

/-- C3: for a struct input with a field whose `ccopy` tag is absent from the
Registry — reached after the preceding fields copy without error — `Copy`
returns the error `missing copy customiser for: <tag>` naming that tag, and
(by the shape of `TopResult.err`, which models `return nil, err`) the returned
copy value is nil: no partially-copied struct escapes. -/
theorem missing_customiser_yields_error
    (c : Config) (fuel fr fr1 : Nat) (pre post gs : List Field)
    (name tag : String) (x : RValue)
    (htag : tag ≠ "") (hmiss : c tag = none)
    (hpre : copyFields (Config.copy c fuel) c pre fr = .ok gs fr1) :
    Config.Copy c (fuel + 1) (.structV (pre ++ (name, tag, true, x) :: post)) fr =
      .err ("missing copy customiser for: " ++ tag) := by
  have ht : (tag == "") = false := by
    simp [htag]
  unfold Config.Copy
  simp only [Config.copy]
  rw [copyFields_append, hpre]
  dsimp only
  simp only [copyFields, ht, Bool.false_eq_true, if_false,
    if_neg (by simp : ¬(true = false)), hmiss]

/-- Witness for the missing-customiser error: the spec scenario — a struct
with one field tagged `A` against the empty Registry. -/
theorem missing_customiser_yields_error_witness :
    ("A" ≠ "") ∧ emptyConfig "A" = none ∧
    copyFields (Config.copy emptyConfig 0) emptyConfig [] 0 = .ok [] 0 ∧
    Config.Copy emptyConfig 1 (.structV [("A", "A", true, .intV 1)]) 0 =
      .err "missing copy customiser for: A" :=
  ⟨by decide, rfl, rfl,
   missing_customiser_yields_error emptyConfig 0 0 0 [] [] [] "A" "A" (.intV 1)
     (by decide) rfl rfl⟩

/-- C4: a nil pointer, nil slice, nil mapping and nil interface value each
copy to the identical nil value (the `IsNil` guard clauses return `ov`
itself); since every nested occurrence is copied by a recursive `Config.copy`
call on exactly that value, this holds at any depth.  No allocation happens:
the counter is unchanged. -/
theorem nil_values_copy_to_same_nil (c : Config) (fuel fr : Nat) :
    Config.copy c (fuel + 1) (.ptrV none) fr = .ok (.ptrV none) fr ∧
    Config.copy c (fuel + 1) (.sliceV none) fr = .ok (.sliceV none) fr ∧
    Config.copy c (fuel + 1) (.mapV none) fr = .ok (.mapV none) fr ∧
    Config.copy c (fuel + 1) (.ifaceV none) fr = .ok (.ifaceV none) fr ∧
    Config.copy c (fuel + 2)
      (.structV [("P", "", true, .ptrV none), ("S", "", true, .sliceV none)]) fr =
      .ok (.structV [("P", "", true, .ptrV none), ("S", "", true, .sliceV none)]) fr :=
  ⟨rfl, rfl, rfl, rfl, rfl⟩

/-- C5: a `uintptr` or `unsafe.Pointer` value falls through the kind switch of
`Config.copy` and panics with the kind name — it is never a recoverable error
— and the panic propagates out of the exported `Copy` (third conjunct: a
struct containing such a field), unwinding the whole copy. -/
theorem address_kinds_cause_panic (c : Config) (fuel fr n k : Nat) :
    Config.copy c (fuel + 1) (.uintptrV n) fr = .panicked "unsupported type: uintptr" ∧
    Config.copy c (fuel + 1) (.rawPtrV n) fr =
      .panicked "unsupported type: unsafe.Pointer" ∧
    Config.Copy c (fuel + 2) (.structV [("F", "", true, .uintptrV k)]) fr =
      .panicked "unsupported type: uintptr" :=
  ⟨rfl, rfl, rfl⟩

/-- C6: an invalid top-level value (e.g. an uninitialized interface passed to
`Copy`) yields the recoverable error `invalid value` — `TopResult.err` models
`return nil, err`, so the result is nil — and not a panic. -/
theorem invalid_top_level_returns_error (c : Config) (fuel fr : Nat) :
    Config.Copy c (fuel + 1) .invalid fr = .err "invalid value" := rfl

/-- C7: scalar kinds (numeric, boolean, string — complex and the other
numeric kinds are collapsed into `intV`), function values, channel handles and
`time.Time` values are returned unchanged: the identical value, including the
referenced channel/function identity, so a copied channel field references the
same channel as the original. -/
theorem passthrough_returned_unchanged (c : Config) (fuel fr : Nat) (n t : Int)
    (s : String) (b : Bool) (fid cid : Option Nat) :
    Config.copy c (fuel + 1) (.intV n) fr = .ok (.intV n) fr ∧
    Config.copy c (fuel + 1) (.strV s) fr = .ok (.strV s) fr ∧
    Config.copy c (fuel + 1) (.boolV b) fr = .ok (.boolV b) fr ∧
    Config.copy c (fuel + 1) (.funcV fid) fr = .ok (.funcV fid) fr ∧
    Config.copy c (fuel + 1) (.chanV cid) fr = .ok (.chanV cid) fr ∧
    Config.copy c (fuel + 1) (.timeV t) fr = .ok (.timeV t) fr :=
  ⟨rfl, rfl, rfl, rfl, rfl, rfl⟩

/-- C8: a non-nil slice copies to a newly allocated slice (fresh identity
`fr`, the current counter) whose capacity is the length of the original (the
capacity hint `reflect.MakeSlice(t, 0, ov.Len())` takes from the original) and
whose elements are the recursive copies of the original elements appended in
order (`copyList` is the element loop, in order), with equal length; an array
copies elementwise, preserving length and order. -/
theorem slice_and_array_elementwise_copy
    (c : Config) (fuel fr fr1 fr2 id cap : Nat) (xs vs ys ws : List RValue)
    (hs : copyList (Config.copy c fuel) xs (fr + 1) = .ok vs fr1)
    (ha : copyList (Config.copy c fuel) ys fr = .ok ws fr2) :
    Config.copy c (fuel + 1) (.sliceV (some (id, cap, xs))) fr =
      .ok (.sliceV (some (fr, xs.length, vs))) fr1 ∧
    vs.length = xs.length ∧
    Config.copy c (fuel + 1) (.arrayV ys) fr = .ok (.arrayV ws) fr2 ∧
    ws.length = ys.length := by
  refine ⟨?_, copyList_length _ xs (fr + 1) vs fr1 hs, ?_,
    copyList_length _ ys fr ws fr2 ha⟩
  · simp only [Config.copy, hs]
  · simp only [Config.copy, ha]

/-- Witness for the slice/array copy shape at concrete inputs. -/
theorem slice_and_array_elementwise_copy_witness :
    copyList (Config.copy emptyConfig 1) [.intV 1, .boolV true] 6 =
      .ok [.intV 1, .boolV true] 6 ∧
    copyList (Config.copy emptyConfig 1) [.strV "y"] 5 = .ok [.strV "y"] 5 ∧
    Config.copy emptyConfig 2 (.sliceV (some (9, 4, [.intV 1, .boolV true]))) 5 =
      .ok (.sliceV (some (5, 2, [.intV 1, .boolV true]))) 6 ∧
    Config.copy emptyConfig 2 (.arrayV [.strV "y"]) 5 = .ok (.arrayV [.strV "y"]) 5 :=
  ⟨rfl, rfl,
   (slice_and_array_elementwise_copy emptyConfig 1 5 6 5 9 4
      [.intV 1, .boolV true] [.intV 1, .boolV true] [.strV "y"] [.strV "y"]
      rfl rfl).1,
   (slice_and_array_elementwise_copy emptyConfig 1 5 6 5 9 4
      [.intV 1, .boolV true] [.intV 1, .boolV true] [.strV "y"] [.strV "y"]
      rfl rfl).2.2.1⟩

/-- C9: a non-nil empty slice and a non-nil empty mapping copy to freshly
allocated, still non-nil, still empty values of the same shape — they do not
collapse to nil (`ov.IsNil()` is false, so the allocating path runs and the
element loop adds nothing). -/
theorem empty_slice_and_map_stay_nonnil (c : Config) (fuel fr id cap mid : Nat) :
    Config.copy c (fuel + 1) (.sliceV (some (id, cap, []))) fr =
      .ok (.sliceV (some (fr, 0, []))) (fr + 1) ∧
    Config.copy c (fuel + 1) (.mapV (some (mid, []))) fr =
      .ok (.mapV (some (fr, []))) (fr + 1) :=
  ⟨rfl, rfl⟩

/-- C10: a struct copy skips an unexported field entirely — the copy succeeds
whatever the field's value holds (even an otherwise-unsupported or tagged
one), that value is never copied, and the destination field retains the zero
value of its type left by `reflect.New`. -/
theorem unexported_fields_skipped_and_zeroed
    (c : Config) (fuel fr fr1 fr2 : Nat) (pre post gs1 gs2 : List Field)
    (name tag : String) (x : RValue)
    (h1 : copyFields (Config.copy c fuel) c pre fr = .ok gs1 fr1)
    (h2 : copyFields (Config.copy c fuel) c post fr1 = .ok gs2 fr2) :
    Config.copy c (fuel + 1) (.structV (pre ++ (name, tag, false, x) :: post)) fr =
      .ok (.structV (gs1 ++ (name, tag, false, zeroFrom x) :: gs2)) fr2 := by
  simp only [Config.copy]
  rw [copyFields_append, h1]
  dsimp only
  simp [copyFields, h2]

/-- Witness for the unexported-field rule: an unexported field holding an
(unsupported!) `uintptr`-kind value is skipped — the copy succeeds and the
field comes back as the zero of its type. -/
theorem unexported_fields_skipped_and_zeroed_witness :
    copyFields (Config.copy emptyConfig 0) emptyConfig [] 0 = .ok [] 0 ∧
    Config.copy emptyConfig 1 (.structV [("a", "t", false, .rawPtrV 7)]) 0 =
      .ok (.structV [("a", "t", false, .rawPtrV 0)]) 0 :=
  ⟨rfl,
   unexported_fields_skipped_and_zeroed emptyConfig 0 0 0 0 [] [] [] []
     "a" "t" (.rawPtrV 7) rfl rfl⟩

end Ccopy
